import Mathlib

/-!
Shallow embedding of `src/backend_server.py`: a region-partitioned TTL
whitelist store coupled with a per-user coin ledger.

Modelling conventions:
* A Python `dict` persisted as a JSON object is modelled as an ordered
  association list `List (String × Int)` with unique keys; `d[k] = v`
  replaces in place when the key exists and appends otherwise, `del d[k]`
  removes the key, mirroring CPython dict semantics.
* The durable files (`whitelists/whitelist_<region>.json` per region and
  `users.json`) are the system state, collected in `ServerState`.
* `save_json_file` can fail (returning `False`); each operation that saves
  takes one `Bool` per save it performs, injecting that outcome.  On a
  failed save the on-disk state is unchanged (atomic replace discipline).
* `int(time.time())` is an external input, passed as `now : Int`.
* Python `str.isdigit` is modelled for ASCII digit strings.
-/

namespace Backend

/-- `ALL_REGIONS` from `backend_server.py` line 14, in source order. -/
def ALL_REGIONS : List String :=
  ["ME", "IND", "ID", "VN", "TH", "BD", "PK", "TW", "EU", "CIS", "NA", "SAC", "BR"]

/-- `COIN_COST_PER_UID` (line 15). -/
def COIN_COST_PER_UID : Int := 100

/-- `DEFAULT_WHITELIST_HOURS` (line 16). -/
def DEFAULT_WHITELIST_HOURS : Int := 24

/-- Python `s.isdigit()` restricted to ASCII: nonempty and all digit chars. -/
def pyIsdigit (s : String) : Bool :=
  !s.isEmpty && s.data.all Char.isDigit

/-- Python `s.strip()` for ASCII whitespace: drop leading and trailing
whitespace characters. -/
def pyStrip (s : String) : String :=
  ⟨((s.data.dropWhile Char.isWhitespace).reverse.dropWhile Char.isWhitespace).reverse⟩

/-- Python `s.upper()` for ASCII letters. -/
def pyUpper (s : String) : String :=
  ⟨s.data.map (fun c => if 'a' ≤ c ∧ c ≤ 'z' then Char.ofNat (c.toNat - 32) else c)⟩

/-- A persisted whitelist partition: ordered map uid ↦ expiry (unix seconds). -/
abbrev Partition := List (String × Int)

/-- Python dict lookup `d.get(k)` / `d[k]` on a partition. -/
def dictGet : Partition → String → Option Int
  | [], _ => none
  | (k, v) :: rest, key => if k = key then some v else dictGet rest key

/-- Python dict assignment `d[key] = val`: replace in place if the key is
present, else append at the end (CPython insertion-order semantics). -/
def dictInsert : Partition → String → Int → Partition
  | [], key, val => [(key, val)]
  | (k, v) :: rest, key, val =>
    if k = key then (k, val) :: rest else (k, v) :: dictInsert rest key val

/-- Python `del d[key]` (keys are unique in a dict, so filtering is exact). -/
def dictErase (d : Partition) (key : String) : Partition :=
  d.filter (fun p => p.1 ≠ key)

/-- One ledger history record appended by the endpoints
(`whitelist_add` at lines 152-159, `coins_add` at lines 329-334). -/
inductive HistoryEntry where
  | whitelistAdd (uid : String) (region : String) (hours : Int) (cost : Int)
      (timestamp : Int)
  | coinsAdd (amount : Int) (reason : String) (timestamp : Int)
deriving Repr, DecidableEq

/-- One record of `users.json`: `{"coins": ..., "history": [...]}`. -/
structure UserData where
  coins : Int
  history : List HistoryEntry
deriving Repr, DecidableEq

/-- The durable state: one whitelist file per region string, plus
`users.json` mapping user id to its record (absent user ↦ `none`). -/
structure ServerState where
  whitelists : String → Partition
  users : String → Option UserData

/-- Result of `POST /api/whitelist/add` (`add_to_whitelist`, lines 112-171).
Each constructor is one `return` of the handler; `success` carries the
fields of the 200 response body. -/
inductive AddResult where
  | invalidUid
  | invalidRegion
  | invalidHours
  | insufficientCoins (coins : Int)
  | saveWhitelistFailed
  | success (uid : String) (region : String) (expiry : Int) (status : String)
      (timeRemaining : Int) (coinsRemaining : Int)
deriving Repr, DecidableEq

/-- `add_to_whitelist` (lines 112-171).  `swOk` injects the outcome of
`save_whitelist` (line 147); `suOk` the outcome of `save_users` (line 161),
whose return value the source ignores: the handler returns the success body
either way, and on `suOk = false` the users file is simply not updated. -/
def add_to_whitelist (st : ServerState) (userId rawUid rawRegion : String)
    (hours? : Option Int) (now : Int) (swOk suOk : Bool) :
    AddResult × ServerState :=
  let uid := (pyStrip rawUid)
  let region := (pyUpper rawRegion)
  let hours := hours?.getD DEFAULT_WHITELIST_HOURS
  if uid.isEmpty ∨ ¬ pyIsdigit uid then (.invalidUid, st)
  else if region ∉ ALL_REGIONS then (.invalidRegion, st)
  else if hours < 1 ∨ hours > 720 then (.invalidHours, st)
  else
    let userData := (st.users userId).getD ⟨0, []⟩
    if userData.coins < COIN_COST_PER_UID then
      (.insufficientCoins userData.coins, st)
    else
      let expiry := now + hours * 3600
      let wl' := dictInsert (st.whitelists region) uid expiry
      if ¬ swOk then (.saveWhitelistFailed, st)
      else
        let st1 : ServerState :=
          { st with whitelists := fun r => if r = region then wl' else st.whitelists r }
        let userData' : UserData :=
          { coins := userData.coins - COIN_COST_PER_UID
            history := userData.history ++
              [.whitelistAdd uid region hours COIN_COST_PER_UID now] }
        let st2 : ServerState :=
          if suOk then
            { st1 with users := fun u => if u = userId then some userData' else st1.users u }
          else st1
        (.success uid region expiry "active" (hours * 3600) userData'.coins, st2)

/-- Result of `POST /api/whitelist/remove` (`remove_from_whitelist`). -/
inductive RemoveResult where
  | uidRequired
  | invalidRegion
  | notFound
  | saveFailed
  | removed
deriving Repr, DecidableEq

/-- `remove_from_whitelist` (lines 173-199); `saveOk` injects the result of
`save_whitelist` (line 196), which this handler does check. -/
def remove_from_whitelist (st : ServerState) (rawUid rawRegion : String)
    (saveOk : Bool) : RemoveResult × ServerState :=
  let uid := (pyStrip rawUid)
  let region := (pyUpper rawRegion)
  if uid.isEmpty then (.uidRequired, st)
  else if region ∉ ALL_REGIONS then (.invalidRegion, st)
  else
    let wl := st.whitelists region
    if dictGet wl uid = none then (.notFound, st)
    else
      let wl' := dictErase wl uid
      if ¬ saveOk then (.saveFailed, st)
      else
        (.removed,
         { st with whitelists := fun r => if r = region then wl' else st.whitelists r })

/-- Result of `POST /api/whitelist/check` (`check_whitelist`). -/
inductive CheckResult where
  | uidRequired
  | invalidRegion
  | whitelisted (region : String) (expiry : Int) (timeRemaining : Int)
  | notWhitelisted
deriving Repr, DecidableEq

/-- The `for reg in ALL_REGIONS` loop of `check_whitelist` (lines 286-297):
return on the first region holding an unexpired entry for `uid`; an entry
that exists but is expired does not stop the scan. -/
def scanRegions (st : ServerState) (uid : String) (now : Int) :
    List String → CheckResult
  | [] => .notWhitelisted
  | r :: rest =>
    match dictGet (st.whitelists r) uid with
    | some expiry =>
        if expiry > now then .whitelisted r expiry (expiry - now)
        else scanRegions st uid now rest
    | none => scanRegions st uid now rest

/-- `check_whitelist` (lines 255-299).  `region?` is `data.get("region")`;
Python's `if region:` treats both `None` and `""` as absent.  The handler
never writes, so it returns the state unchanged. -/
def check_whitelist (st : ServerState) (rawUid : String)
    (region? : Option String) (now : Int) : CheckResult × ServerState :=
  let uid := (pyStrip rawUid)
  if uid.isEmpty then (.uidRequired, st)
  else
    match region? with
    | some r =>
      if r ≠ "" then
        let region := (pyUpper r)
        if region ∉ ALL_REGIONS then (.invalidRegion, st)
        else
          match dictGet (st.whitelists region) uid with
          | some expiry =>
              if expiry > now then
                (.whitelisted region expiry (expiry - now), st)
              else (.notWhitelisted, st)
          | none => (.notWhitelisted, st)
      else (scanRegions st uid now ALL_REGIONS, st)
    | none => (scanRegions st uid now ALL_REGIONS, st)

/-- One element of the `entries` array built by the list endpoints
(lines 239-249): raw entry plus derived status and remaining time. -/
structure EntryView where
  uid : String
  region : String
  expiry : Int
  status : String
  time_remaining : Int
deriving Repr, DecidableEq

/-- The view computed for one raw entry (lines 240-249). -/
def entryView (region : String) (now : Int) (p : String × Int) : EntryView :=
  { uid := p.1
    region := region
    expiry := p.2
    status := if p.2 > now then "active" else "expired"
    time_remaining := max 0 (p.2 - now) }

/-- `list_whitelist_by_region` (lines 227-253): `none` for an invalid
region (the 400 response), otherwise the derived views sorted ascending by
expiry (`entries.sort(key=lambda x: x["expiry"])`, a stable sort). -/
def list_whitelist_by_region (st : ServerState) (rawRegion : String)
    (now : Int) : Option (List EntryView) :=
  let region := (pyUpper rawRegion)
  if region ∉ ALL_REGIONS then none
  else
    some (((st.whitelists region).map (entryView region now)).mergeSort
      (fun a b => a.expiry ≤ b.expiry))

/-- `list_whitelist` (lines 201-225): all regions' views in registry order,
then one global ascending sort by expiry. -/
def list_whitelist (st : ServerState) (now : Int) : List EntryView :=
  ((ALL_REGIONS.flatMap
      (fun region => (st.whitelists region).map (entryView region now))).mergeSort
    (fun a b => a.expiry ≤ b.expiry))

/-- `clean_expired_entries` (lines 76-88): collect the uids whose expiry is
`≤ now`, delete each, save only when something was deleted (the source
ignores that save's return value, injected here as `saveOk`), and return
the count collected. -/
def clean_expired_entries (st : ServerState) (region : String) (now : Int)
    (saveOk : Bool) : Nat × ServerState :=
  let wl := st.whitelists region
  let expiredUids := (wl.filter (fun p => p.2 ≤ now)).map Prod.fst
  let wl' := expiredUids.foldl dictErase wl
  if expiredUids.isEmpty then (expiredUids.length, st)
  else if saveOk then
    (expiredUids.length,
     { st with whitelists := fun r => if r = region then wl' else st.whitelists r })
  else (expiredUids.length, st)

/-! Concrete states used to exercise the operations. -/

/-- A user `alice` with exactly `COIN_COST_PER_UID` coins and empty
whitelists everywhere. -/
def stAlice : ServerState :=
  { whitelists := fun _ => []
  , users := fun u => if u = "alice" then some ⟨100, []⟩ else none }

/-- A user `bob` with 50 coins, below the cost of an add. -/
def stBob : ServerState :=
  { whitelists := fun _ => []
  , users := fun u => if u = "bob" then some ⟨50, []⟩ else none }

/-- Uid `777` expired in region `ME` (registry-first) and active in `IND`;
`carol` holds 200 coins. -/
def stDup : ServerState :=
  { whitelists := fun r =>
      if r = "ME" then [("777", 100), ("888", 9500)]
      else if r = "IND" then [("777", 9000)]
      else []
  , users := fun u => if u = "carol" then some ⟨200, []⟩ else none }

/-- An `EU` partition stored out of expiry order, to exercise the listing
sort. -/
def stList : ServerState :=
  { whitelists := fun r => if r = "EU" then [("111", 9000), ("222", 20)] else []
  , users := fun _ => none }

/-! Lemmas about the dict operations. -/

theorem pyIsdigit_isEmpty {s : String} (h : pyIsdigit s = true) :
    s.isEmpty = false := by
  have := (Bool.and_eq_true _ _).mp h
  simpa using this.1

theorem dictGet_dictInsert_self (wl : Partition) (k : String) (v : Int) :
    dictGet (dictInsert wl k v) k = some v := by
  induction wl with
  | nil => simp [dictInsert, dictGet]
  | cons p rest ih =>
    by_cases h : p.1 = k
    · simp [dictInsert, h, dictGet]
    · simp [dictInsert, h, dictGet, ih]

theorem mem_keys_dictInsert {wl : Partition} {k : String} {v : Int} {x : String}
    (h : x ∈ (dictInsert wl k v).map Prod.fst) :
    x ∈ wl.map Prod.fst ∨ x = k := by
  induction wl with
  | nil => simpa [dictInsert] using h
  | cons p rest ih =>
    by_cases hp : p.1 = k
    · simp only [dictInsert, if_pos hp] at h
      rcases (by simpa using h) with h' | h'
      · exact Or.inl (by simp [h'])
      · exact Or.inl (by simp; exact Or.inr h')
    · simp only [dictInsert, if_neg hp] at h
      rcases (by simpa using h) with h' | h'
      · exact Or.inl (by simp [h'])
      · rcases ih (by simpa using h') with h'' | h''
        · exact Or.inl (by simp; right; simpa using h'')
        · exact Or.inr h''

theorem nodup_keys_dictInsert {wl : Partition} (k : String) (v : Int)
    (h : (wl.map Prod.fst).Nodup) :
    ((dictInsert wl k v).map Prod.fst).Nodup := by
  induction wl with
  | nil => simp [dictInsert]
  | cons p rest ih =>
    rw [List.map_cons, List.nodup_cons] at h
    by_cases hp : p.1 = k
    · simpa [dictInsert, hp, List.nodup_cons] using h
    · rw [show dictInsert (p :: rest) k v = p :: dictInsert rest k v by
        simp [dictInsert, hp]]
      rw [List.map_cons, List.nodup_cons]
      refine ⟨fun hmem => ?_, ih h.2⟩
      rcases mem_keys_dictInsert hmem with h' | h'
      · exact h.1 h'
      · exact hp h'

theorem filter_key_dictInsert {wl : Partition} (k : String) (v : Int)
    (h : (wl.map Prod.fst).Nodup) :
    (dictInsert wl k v).filter (fun p => p.1 = k) = [(k, v)] := by
  induction wl with
  | nil => simp [dictInsert]
  | cons p rest ih =>
    rw [List.map_cons, List.nodup_cons] at h
    by_cases hp : p.1 = k
    · rw [show dictInsert (p :: rest) k v = (p.1, v) :: rest by
        simp [dictInsert, hp]]
      have hrest : rest.filter (fun q => q.1 = k) = [] := by
        rw [List.filter_eq_nil_iff]
        intro q hq
        simp only [decide_eq_true_eq]
        intro hqk
        apply h.1
        have hm := List.mem_map_of_mem Prod.fst hq
        rwa [hqk, ← hp] at hm
      simp [List.filter_cons, hp, hrest]
    · rw [show dictInsert (p :: rest) k v = p :: dictInsert rest k v by
        simp [dictInsert, hp]]
      simp [List.filter_cons, hp, ih h.2]

theorem foldl_dictErase_eq_filter (uids : List String) :
    ∀ wl : Partition,
      uids.foldl dictErase wl = wl.filter (fun p => decide (p.1 ∉ uids)) := by
  induction uids with
  | nil => intro wl; simp
  | cons u us ih =>
    intro wl
    rw [List.foldl_cons, ih (dictErase wl u)]
    unfold dictErase
    rw [List.filter_filter]
    apply List.filter_congr
    intro p _
    by_cases h1 : p.1 = u <;> by_cases h2 : p.1 ∈ us <;> simp [h1, h2]

/-! Shape of the success path of `add_to_whitelist` (validation passed,
coins sufficient, whitelist save succeeded). -/

theorem add_to_whitelist_success (st : ServerState)
    (userId rawUid rawRegion : String) (hours? : Option Int) (now : Int)
    (suOk : Bool)
    (hU : pyIsdigit (pyStrip rawUid) = true)
    (hR : (pyUpper rawRegion) ∈ ALL_REGIONS)
    (h1 : 1 ≤ hours?.getD DEFAULT_WHITELIST_HOURS)
    (h2 : hours?.getD DEFAULT_WHITELIST_HOURS ≤ 720)
    (hC : COIN_COST_PER_UID ≤ ((st.users userId).getD ⟨0, []⟩).coins) :
    add_to_whitelist st userId rawUid rawRegion hours? now true suOk =
      (AddResult.success (pyStrip rawUid) (pyUpper rawRegion)
        (now + hours?.getD DEFAULT_WHITELIST_HOURS * 3600) "active"
        (hours?.getD DEFAULT_WHITELIST_HOURS * 3600)
        (((st.users userId).getD ⟨0, []⟩).coins - COIN_COST_PER_UID),
       { whitelists := fun r =>
           if r = (pyUpper rawRegion) then
             dictInsert (st.whitelists (pyUpper rawRegion)) (pyStrip rawUid)
               (now + hours?.getD DEFAULT_WHITELIST_HOURS * 3600)
           else st.whitelists r
         users := if suOk then
             (fun u => if u = userId then
                 some ⟨((st.users userId).getD ⟨0, []⟩).coins - COIN_COST_PER_UID,
                   ((st.users userId).getD ⟨0, []⟩).history ++
                     [.whitelistAdd (pyStrip rawUid) (pyUpper rawRegion)
                       (hours?.getD DEFAULT_WHITELIST_HOURS) COIN_COST_PER_UID now]⟩
               else st.users u)
           else st.users }) := by
  have hE : (pyStrip rawUid).isEmpty = false := pyIsdigit_isEmpty hU
  simp only [add_to_whitelist]
  rw [if_neg (by simp [hE, hU]), if_neg (not_not_intro hR), if_neg (by omega),
    if_neg (by omega), if_neg (by simp)]
  cases suOk <;> simp

/-! Lemmas about the all-regions scan of `check_whitelist`. -/

theorem scanRegions_eq_whitelisted (st : ServerState) (uid : String) (now : Int)
    (regions : List String) :
    ∀ (R : String) (e rem : Int),
      scanRegions st uid now regions = .whitelisted R e rem →
      ∃ l1 l2, regions = l1 ++ R :: l2 ∧
        dictGet (st.whitelists R) uid = some e ∧ now < e ∧ rem = e - now ∧
        ∀ r' ∈ l1, ∀ e', dictGet (st.whitelists r') uid = some e' → e' ≤ now := by
  induction regions with
  | nil => intro R e rem h; simp [scanRegions] at h
  | cons r rest ih =>
    intro R e rem h
    simp only [scanRegions] at h
    cases hg : dictGet (st.whitelists r) uid with
    | some expiry =>
      rw [hg] at h
      simp only at h
      by_cases hlt : expiry > now
      · rw [if_pos hlt] at h
        cases h
        exact ⟨[], rest, rfl, hg, hlt, rfl, by simp⟩
      · rw [if_neg hlt] at h
        obtain ⟨l1, l2, hsplit, hgR, hnow, hrem, hall⟩ := ih R e rem h
        refine ⟨r :: l1, l2, by rw [hsplit]; rfl, hgR, hnow, hrem, ?_⟩
        intro r' hr' e' hge'
        rcases List.mem_cons.mp hr' with h' | h'
        · subst h'; rw [hg] at hge'; cases hge'; omega
        · exact hall r' h' e' hge'
    | none =>
      rw [hg] at h
      simp only at h
      obtain ⟨l1, l2, hsplit, hgR, hnow, hrem, hall⟩ := ih R e rem h
      refine ⟨r :: l1, l2, by rw [hsplit]; rfl, hgR, hnow, hrem, ?_⟩
      intro r' hr' e' hge'
      rcases List.mem_cons.mp hr' with h' | h'
      · subst h'; rw [hg] at hge'; cases hge'
      · exact hall r' h' e' hge'

theorem scanRegions_first_active (st : ServerState) (uid : String) (now : Int) :
    ∀ (l1 : List String) (R : String) (l2 : List String) (e : Int),
      dictGet (st.whitelists R) uid = some e → now < e →
      (∀ r' ∈ l1, ∀ e', dictGet (st.whitelists r') uid = some e' → e' ≤ now) →
      scanRegions st uid now (l1 ++ R :: l2) = .whitelisted R e (e - now) := by
  intro l1
  induction l1 with
  | nil =>
    intro R l2 e hg hlt _
    simp only [List.nil_append, scanRegions]
    rw [hg]
    simp only
    rw [if_pos hlt]
  | cons r rest ih =>
    intro R l2 e hg hlt hall
    simp only [List.cons_append, scanRegions]
    cases hgr : dictGet (st.whitelists r) uid with
    | some e' =>
      simp only
      rw [if_neg (by have := hall r (by simp) e' hgr; omega)]
      exact ih R l2 e hg hlt (fun r' hr' => hall r' (List.mem_cons_of_mem r hr'))
    | none =>
      exact ih R l2 e hg hlt (fun r' hr' => hall r' (List.mem_cons_of_mem r hr'))

theorem scanRegions_eq_notWhitelisted (st : ServerState) (uid : String)
    (now : Int) (regions : List String)
    (hall : ∀ r ∈ regions, ∀ e, dictGet (st.whitelists r) uid = some e →
      e ≤ now) :
    scanRegions st uid now regions = .notWhitelisted := by
  induction regions with
  | nil => rfl
  | cons r rest ih =>
    simp only [scanRegions]
    cases hg : dictGet (st.whitelists r) uid with
    | some expiry =>
      simp only
      rw [if_neg (by have := hall r (by simp) expiry hg; omega)]
      exact ih (fun r' hr' => hall r' (List.mem_cons_of_mem r hr'))
    | none =>
      exact ih (fun r' hr' => hall r' (List.mem_cons_of_mem r hr'))

/-! Claim theorems. -/

/-- Claim C1: the spec requires that when the whitelist save (step 2)
succeeds but the users-file save (step 3) fails, the paid add surfaces a
distinguishable partial-success error.  The code ignores the return value
of `save_users` (line 161) and returns the plain full-success body: at this
input the whitelist save succeeds, the users save fails, yet the result is
`success` reporting the debited balance `0` while the persisted record of
`alice` still holds 100 coins and an empty history, and the uid is
persisted in the `IND` partition.  This contradicts the claim (and §4.5/§7
of the spec), so the code, not the claim, is at fault. -/
theorem claim1_partial_failure_reported_as_full_success :
    (add_to_whitelist stAlice "alice" "12345" "IND" (some 2) 1000 true false).1 =
      AddResult.success "12345" "IND" 8200 "active" 7200 0 ∧
    (add_to_whitelist stAlice "alice" "12345" "IND" (some 2) 1000 true false).2.users
      "alice" = some ⟨100, []⟩ ∧
    dictGet ((add_to_whitelist stAlice "alice" "12345" "IND" (some 2) 1000 true
      false).2.whitelists "IND") "12345" = some 8200 :=
  ⟨rfl, rfl, rfl⟩

/-- Claim C2: a paid add with valid inputs and a balance strictly below
`COIN_COST_PER_UID` returns the insufficient-funds error and the state —
every partition, every balance, every history — is unchanged. -/
theorem claim2_insufficient_funds_fail_fast (st : ServerState)
    (userId rawUid rawRegion : String) (hours? : Option Int) (now : Int)
    (swOk suOk : Bool)
    (hU : pyIsdigit (pyStrip rawUid) = true)
    (hR : (pyUpper rawRegion) ∈ ALL_REGIONS)
    (h1 : 1 ≤ hours?.getD DEFAULT_WHITELIST_HOURS)
    (h2 : hours?.getD DEFAULT_WHITELIST_HOURS ≤ 720)
    (hC : ((st.users userId).getD ⟨0, []⟩).coins < COIN_COST_PER_UID) :
    add_to_whitelist st userId rawUid rawRegion hours? now swOk suOk =
      (AddResult.insufficientCoins ((st.users userId).getD ⟨0, []⟩).coins, st) := by
  have hE : (pyStrip rawUid).isEmpty = false := pyIsdigit_isEmpty hU
  simp only [add_to_whitelist]
  rw [if_neg (by simp [hE, hU]), if_neg (not_not_intro hR), if_neg (by omega),
    if_pos hC]

/-- Claim C2 witness: `bob` with 50 coins attempts a paid add and gets the
insufficient-funds error with the state unchanged. -/
theorem claim2_witness :
    add_to_whitelist stBob "bob" "12345" "EU" none 0 true true =
      (AddResult.insufficientCoins 50, stBob) := by
  have h := claim2_insufficient_funds_fail_fast stBob "bob" "12345" "EU" none 0
    true true (by decide) (by decide) (by decide) (by decide) (by decide)
  exact h

/-- Claim C8: a paid add whose (stripped) uid is empty or not numeric-only,
or whose (upper-cased) region is not one of the 13 registry codes, or whose
hours value is outside 1..720, returns one of the three validation errors
with the state unchanged. -/
theorem claim8_validation_error_no_mutation (st : ServerState)
    (userId rawUid rawRegion : String) (hours? : Option Int) (now : Int)
    (swOk suOk : Bool)
    (hbad : pyIsdigit (pyStrip rawUid) = false ∨ (pyUpper rawRegion) ∉ ALL_REGIONS ∨
      hours?.getD DEFAULT_WHITELIST_HOURS < 1 ∨
      720 < hours?.getD DEFAULT_WHITELIST_HOURS) :
    ((add_to_whitelist st userId rawUid rawRegion hours? now swOk suOk).1 =
        AddResult.invalidUid ∨
     (add_to_whitelist st userId rawUid rawRegion hours? now swOk suOk).1 =
        AddResult.invalidRegion ∨
     (add_to_whitelist st userId rawUid rawRegion hours? now swOk suOk).1 =
        AddResult.invalidHours) ∧
    (add_to_whitelist st userId rawUid rawRegion hours? now swOk suOk).2 = st := by
  simp only [add_to_whitelist]
  by_cases c1 : (pyStrip rawUid).isEmpty = true ∨ ¬ pyIsdigit (pyStrip rawUid) = true
  · rw [if_pos c1]; exact ⟨Or.inl rfl, rfl⟩
  · rw [if_neg c1]
    have hd : pyIsdigit (pyStrip rawUid) = true := by
      by_contra hx
      exact c1 (Or.inr hx)
    by_cases c2 : (pyUpper rawRegion) ∉ ALL_REGIONS
    · rw [if_pos c2]; exact ⟨Or.inr (Or.inl rfl), rfl⟩
    · rw [if_neg c2]
      have c3 : hours?.getD DEFAULT_WHITELIST_HOURS < 1 ∨
          hours?.getD DEFAULT_WHITELIST_HOURS > 720 := by
        rcases hbad with h | h | h | h
        · rw [h] at hd; cases hd
        · exact absurd h c2
        · exact Or.inl h
        · exact Or.inr h
      rw [if_pos c3]
      exact ⟨Or.inr (Or.inr rfl), rfl⟩

/-- Claim C8 witness: an add with a non-numeric uid is rejected with a
validation error and no mutation. -/
theorem claim8_witness :
    ((add_to_whitelist stAlice "alice" "12x45" "IND" (some 2) 0 true true).1 =
        AddResult.invalidUid ∨
     (add_to_whitelist stAlice "alice" "12x45" "IND" (some 2) 0 true true).1 =
        AddResult.invalidRegion ∨
     (add_to_whitelist stAlice "alice" "12x45" "IND" (some 2) 0 true true).1 =
        AddResult.invalidHours) ∧
    (add_to_whitelist stAlice "alice" "12x45" "IND" (some 2) 0 true true).2 =
      stAlice :=
  claim8_validation_error_no_mutation stAlice "alice" "12x45" "IND" (some 2) 0
    true true (by decide)

/-- Claim C10: an add with the hours field omitted behaves exactly like an
add with `DEFAULT_WHITELIST_HOURS = 24` passed explicitly (hence the same
1..720 validation applies), and on the success path it stores and reports
expiry `now + 24*3600`. -/
theorem claim10_default_hours (st : ServerState)
    (userId rawUid rawRegion : String) (now : Int) (swOk suOk : Bool)
    (hU : pyIsdigit (pyStrip rawUid) = true)
    (hR : (pyUpper rawRegion) ∈ ALL_REGIONS)
    (hC : COIN_COST_PER_UID ≤ ((st.users userId).getD ⟨0, []⟩).coins) :
    add_to_whitelist st userId rawUid rawRegion none now swOk suOk =
      add_to_whitelist st userId rawUid rawRegion (some DEFAULT_WHITELIST_HOURS)
        now swOk suOk ∧
    dictGet ((add_to_whitelist st userId rawUid rawRegion none now true
        true).2.whitelists (pyUpper rawRegion)) (pyStrip rawUid) =
      some (now + 24 * 3600) ∧
    (add_to_whitelist st userId rawUid rawRegion none now true true).1 =
      AddResult.success (pyStrip rawUid) (pyUpper rawRegion) (now + 24 * 3600) "active"
        (24 * 3600)
        (((st.users userId).getD ⟨0, []⟩).coins - COIN_COST_PER_UID) := by
  refine ⟨rfl, ?_, ?_⟩
  · rw [add_to_whitelist_success st userId rawUid rawRegion none now true hU hR
      (by decide) (by decide) hC]
    simp [dictGet_dictInsert_self, DEFAULT_WHITELIST_HOURS]
  · rw [add_to_whitelist_success st userId rawUid rawRegion none now true hU hR
      (by decide) (by decide) hC]
    simp [DEFAULT_WHITELIST_HOURS]

/-- Claim C5: checking a uid.  With a region given: if the uid's entry in
that partition is absent or expired (`expiresAt <= now`), the result is
not-whitelisted and the state is returned unchanged.  With the region
omitted: the scan visits `ALL_REGIONS` in registry order; any whitelisted
answer names the first region with an active entry — every region strictly
earlier in the registry order has no active entry for the uid (absent, or
present but expired); conversely, whenever the registry splits as
`l1 ++ R :: l2` with `R` holding an active entry and every region of `l1`
inactive for the uid (in particular when an earlier region's match is
merely expired), the scan returns exactly that first active match; and
when no region has an active entry the answer is not-whitelisted. -/
theorem claim5_check_semantics (st : ServerState) (rawUid r : String)
    (now : Int)
    (hu : (pyStrip rawUid).isEmpty = false)
    (hr0 : r ≠ "")
    (hr : pyUpper r ∈ ALL_REGIONS)
    (hexp : ∀ e, dictGet (st.whitelists (pyUpper r)) (pyStrip rawUid) = some e →
      e ≤ now) :
    check_whitelist st rawUid (some r) now = (.notWhitelisted, st) ∧
    (check_whitelist st rawUid none now).2 = st ∧
    (∀ R e rem, (check_whitelist st rawUid none now).1 = .whitelisted R e rem →
      ∃ l1 l2, ALL_REGIONS = l1 ++ R :: l2 ∧
        dictGet (st.whitelists R) (pyStrip rawUid) = some e ∧ now < e ∧
        rem = e - now ∧
        ∀ r' ∈ l1, ∀ e', dictGet (st.whitelists r') (pyStrip rawUid) = some e' →
          e' ≤ now) ∧
    (∀ (R : String) (e : Int) (l1 l2 : List String),
      ALL_REGIONS = l1 ++ R :: l2 →
      dictGet (st.whitelists R) (pyStrip rawUid) = some e → now < e →
      (∀ r' ∈ l1, ∀ e', dictGet (st.whitelists r') (pyStrip rawUid) = some e' →
        e' ≤ now) →
      (check_whitelist st rawUid none now).1 = .whitelisted R e (e - now)) ∧
    ((∀ reg ∈ ALL_REGIONS, ∀ e,
        dictGet (st.whitelists reg) (pyStrip rawUid) = some e → e ≤ now) →
      (check_whitelist st rawUid none now).1 = .notWhitelisted) := by
  refine ⟨?_, ?_, ?_, ?_, ?_⟩
  · simp only [check_whitelist]
    rw [if_neg (by simp [hu]), if_pos hr0, if_neg (not_not_intro hr)]
    cases hg : dictGet (st.whitelists (pyUpper r)) (pyStrip rawUid) with
    | some expiry =>
      simp only
      rw [if_neg (by have := hexp expiry hg; omega)]
    | none => simp only
  · simp only [check_whitelist]
    rw [if_neg (by simp [hu])]
  · intro R e rem h
    simp only [check_whitelist] at h
    rw [if_neg (by simp [hu])] at h
    exact scanRegions_eq_whitelisted st (pyStrip rawUid) now ALL_REGIONS R e rem h
  · intro R e l1 l2 heq hg hlt hall
    simp only [check_whitelist]
    rw [if_neg (by simp [hu]), heq]
    exact scanRegions_first_active st (pyStrip rawUid) now l1 R l2 e hg hlt hall
  · intro hall
    simp only [check_whitelist]
    rw [if_neg (by simp [hu])]
    exact scanRegions_eq_notWhitelisted st (pyStrip rawUid) now ALL_REGIONS hall

/-- Claim C5 witness: uid 777 is expired in `ME` (the registry-first
region) and active in `IND`; a region-scoped check of `ME` answers
not-whitelisted without mutation, and the region-omitted scan answers
exactly `whitelisted IND`, skipping the earlier expired match. -/
theorem claim5_witness :
    check_whitelist stDup "777" (some "ME") 5000 =
      (.notWhitelisted, stDup) ∧
    (check_whitelist stDup "777" none 5000).1 =
      CheckResult.whitelisted "IND" 9000 4000 := by
  have h := claim5_check_semantics stDup "777" "ME" 5000 (by decide) (by decide)
    (by decide)
    (by
      intro e he
      have hx : dictGet (stDup.whitelists (pyUpper "ME")) (pyStrip "777") =
          some 100 := by decide
      rw [hx] at he
      injection he with he'
      omega)
  refine ⟨h.1, ?_⟩
  have hc := h.2.2.2.1 "IND" 9000 ["ME"]
    ["ID", "VN", "TH", "BD", "PK", "TW", "EU", "CIS", "NA", "SAC", "BR"]
    rfl (by decide) (by decide) ?_
  · exact hc
  · intro r' hr' e' he'
    have hr'' : r' = "ME" := by simpa using hr'
    subst hr''
    have hx : dictGet (stDup.whitelists "ME") (pyStrip "777") = some 100 := by
      decide
    rw [hx] at he'
    injection he' with he''
    omega

/-- Claim C3: a successful paid add with valid inputs debits exactly
`COIN_COST_PER_UID` from the caller, appends exactly one `whitelist_add`
history entry, stores exactly one entry for the uid in the target partition
with expiry `now + hours*3600`, and reports it active with
`time_remaining = hours*3600`. -/
theorem claim3_successful_add_effects (st : ServerState)
    (userId rawUid rawRegion : String) (hours? : Option Int) (now : Int)
    (hU : pyIsdigit (pyStrip rawUid) = true)
    (hR : (pyUpper rawRegion) ∈ ALL_REGIONS)
    (h1 : 1 ≤ hours?.getD DEFAULT_WHITELIST_HOURS)
    (h2 : hours?.getD DEFAULT_WHITELIST_HOURS ≤ 720)
    (hC : COIN_COST_PER_UID ≤ ((st.users userId).getD ⟨0, []⟩).coins)
    (hN : ((st.whitelists (pyUpper rawRegion)).map Prod.fst).Nodup) :
    (add_to_whitelist st userId rawUid rawRegion hours? now true true).1 =
      AddResult.success (pyStrip rawUid) (pyUpper rawRegion)
        (now + hours?.getD DEFAULT_WHITELIST_HOURS * 3600) "active"
        (hours?.getD DEFAULT_WHITELIST_HOURS * 3600)
        (((st.users userId).getD ⟨0, []⟩).coins - COIN_COST_PER_UID) ∧
    (add_to_whitelist st userId rawUid rawRegion hours? now true true).2.users
        userId =
      some ⟨((st.users userId).getD ⟨0, []⟩).coins - COIN_COST_PER_UID,
        ((st.users userId).getD ⟨0, []⟩).history ++
          [.whitelistAdd (pyStrip rawUid) (pyUpper rawRegion)
            (hours?.getD DEFAULT_WHITELIST_HOURS) COIN_COST_PER_UID now]⟩ ∧
    ((add_to_whitelist st userId rawUid rawRegion hours? now true
        true).2.whitelists (pyUpper rawRegion)).filter
        (fun p => p.1 = pyStrip rawUid) =
      [(pyStrip rawUid, now + hours?.getD DEFAULT_WHITELIST_HOURS * 3600)] := by
  rw [add_to_whitelist_success st userId rawUid rawRegion hours? now true hU hR
    h1 h2 hC]
  refine ⟨rfl, by simp, ?_⟩
  simpa using filter_key_dictInsert (pyStrip rawUid)
    (now + hours?.getD DEFAULT_WHITELIST_HOURS * 3600) hN

/-- Claim C3 witness: alice with exactly 100 coins adds uid 12345 to IND for
2 hours at time 1000; balance 0, one history entry, one active entry. -/
theorem claim3_witness :
    (add_to_whitelist stAlice "alice" "12345" "IND" (some 2) 1000 true true).1 =
      AddResult.success "12345" "IND" 8200 "active" 7200 0 ∧
    (add_to_whitelist stAlice "alice" "12345" "IND" (some 2) 1000 true
        true).2.users "alice" =
      some ⟨0, [.whitelistAdd "12345" "IND" 2 100 1000]⟩ ∧
    ((add_to_whitelist stAlice "alice" "12345" "IND" (some 2) 1000 true
        true).2.whitelists "IND").filter (fun p => p.1 = "12345") =
      [("12345", 8200)] := by
  have h := claim3_successful_add_effects stAlice "alice" "12345" "IND" (some 2)
    1000 (by decide) (by decide) (by decide) (by decide) (by decide) (by decide)
  exact h

/-- Claim C4: adding the same (region, uid) twice with different TTLs leaves
exactly one stored entry for that uid, carrying the second call's expiry;
the second call is again a plain success (there is no already-present
error — `AddResult` has no such constructor and the success path
unconditionally overwrites). -/
theorem claim4_readd_overwrites (st : ServerState)
    (userId rawUid rawRegion : String) (h1v h2v now1 now2 : Int)
    (hU : pyIsdigit (pyStrip rawUid) = true)
    (hR : (pyUpper rawRegion) ∈ ALL_REGIONS)
    (hb1 : 1 ≤ h1v) (hb1' : h1v ≤ 720)
    (hb2 : 1 ≤ h2v) (hb2' : h2v ≤ 720)
    (hC : 2 * COIN_COST_PER_UID ≤ ((st.users userId).getD ⟨0, []⟩).coins)
    (hN : ((st.whitelists (pyUpper rawRegion)).map Prod.fst).Nodup) :
    (add_to_whitelist
        (add_to_whitelist st userId rawUid rawRegion (some h1v) now1 true true).2
        userId rawUid rawRegion (some h2v) now2 true true).1 =
      AddResult.success (pyStrip rawUid) (pyUpper rawRegion)
        (now2 + h2v * 3600) "active" (h2v * 3600)
        (((st.users userId).getD ⟨0, []⟩).coins - COIN_COST_PER_UID -
          COIN_COST_PER_UID) ∧
    ((add_to_whitelist
        (add_to_whitelist st userId rawUid rawRegion (some h1v) now1 true true).2
        userId rawUid rawRegion (some h2v) now2 true true).2.whitelists
        (pyUpper rawRegion)).filter (fun p => p.1 = pyStrip rawUid) =
      [(pyStrip rawUid, now2 + h2v * 3600)] := by
  have hC1 : COIN_COST_PER_UID ≤ ((st.users userId).getD ⟨0, []⟩).coins := by
    have : (0 : Int) < COIN_COST_PER_UID := by decide
    omega
  rw [add_to_whitelist_success st userId rawUid rawRegion (some h1v) now1 true
    hU hR hb1 hb1' hC1]
  have e2 := add_to_whitelist_success
    (ServerState.mk
      (fun r => if r = pyUpper rawRegion then
          dictInsert (st.whitelists (pyUpper rawRegion)) (pyStrip rawUid)
            (now1 + (some h1v).getD DEFAULT_WHITELIST_HOURS * 3600)
        else st.whitelists r)
      (if true then
        (fun u => if u = userId then
            some ⟨((st.users userId).getD ⟨0, []⟩).coins - COIN_COST_PER_UID,
              ((st.users userId).getD ⟨0, []⟩).history ++
                [.whitelistAdd (pyStrip rawUid) (pyUpper rawRegion)
                  ((some h1v).getD DEFAULT_WHITELIST_HOURS) COIN_COST_PER_UID
                  now1]⟩
          else st.users u)
      else st.users))
    userId rawUid rawRegion (some h2v) now2 true hU hR hb2 hb2' (by simp; omega)
  rw [e2]
  constructor
  · simp
  · simp only [ServerState.mk.injEq, if_pos rfl]
    have hN2 : (((if true then
        (fun r => if r = pyUpper rawRegion then
            dictInsert (st.whitelists (pyUpper rawRegion)) (pyStrip rawUid)
              (now1 + (some h1v).getD DEFAULT_WHITELIST_HOURS * 3600)
          else st.whitelists r)
      else (fun r => st.whitelists r)) (pyUpper rawRegion)).map Prod.fst).Nodup := by
      simpa using nodup_keys_dictInsert (pyStrip rawUid)
        (now1 + (some h1v).getD DEFAULT_WHITELIST_HOURS * 3600) hN
    simpa using filter_key_dictInsert (pyStrip rawUid)
      (now2 + (some h2v).getD DEFAULT_WHITELIST_HOURS * 3600) (by simpa using hN2)

/-- Claim C4 witness: carol (200 coins) adds uid 777 to IND twice with
different TTLs; one entry with the second expiry remains, second call is a
plain success. -/
theorem claim4_witness :
    (add_to_whitelist
        (add_to_whitelist stDup "carol" "777" "IND" (some 1) 0 true true).2
        "carol" "777" "IND" (some 5) 100 true true).1 =
      AddResult.success "777" "IND" 18100 "active" 18000 0 ∧
    ((add_to_whitelist
        (add_to_whitelist stDup "carol" "777" "IND" (some 1) 0 true true).2
        "carol" "777" "IND" (some 5) 100 true true).2.whitelists "IND").filter
        (fun p => p.1 = "777") = [("777", 18100)] := by
  have h := claim4_readd_overwrites stDup "carol" "777" "IND" 1 5 0 100
    (by decide) (by decide) (by decide) (by decide) (by decide) (by decide)
    (by decide) (by decide)
  exact h

/-- Claim C6: for a valid region, the region listing yields exactly one
view per stored entry (a permutation of the per-entry views), with
`status = active` iff `expiresAt > now`, `remaining = max 0 (expiresAt -
now)`, and the output sorted ascending by expiry. -/
theorem claim6_list_sorted (st : ServerState) (rawRegion : String) (now : Int)
    (hR : pyUpper rawRegion ∈ ALL_REGIONS) :
    ∃ l, list_whitelist_by_region st rawRegion now = some l ∧
      List.Perm l ((st.whitelists (pyUpper rawRegion)).map
        (entryView (pyUpper rawRegion) now)) ∧
      List.Pairwise (fun a b => a.expiry ≤ b.expiry) l ∧
      ∀ v ∈ l, (v.status = "active" ↔ now < v.expiry) ∧
        v.time_remaining = max 0 (v.expiry - now) := by
  refine ⟨((st.whitelists (pyUpper rawRegion)).map
      (entryView (pyUpper rawRegion) now)).mergeSort
      (fun a b => a.expiry ≤ b.expiry), ?_, ?_, ?_, ?_⟩
  · simp only [list_whitelist_by_region]
    rw [if_neg (not_not_intro hR)]
  · exact List.mergeSort_perm _ _
  · refine List.Pairwise.imp (fun h => of_decide_eq_true h)
      (List.sorted_mergeSort ?_ ?_ _)
    · intro a b c hab hbc
      simp only [decide_eq_true_eq] at hab hbc ⊢
      omega
    · intro a b
      simpa using Int.le_total a.expiry b.expiry
  · intro v hv
    rw [List.mem_mergeSort] at hv
    obtain ⟨p, hp, rfl⟩ := List.mem_map.mp hv
    refine ⟨?_, rfl⟩
    by_cases hc : now < p.2 <;> simp [entryView, hc]

/-- Claim C6 witness: the `EU` partition stored out of expiry order is
listed with derived statuses and sorted soonest-expiring first. -/
theorem claim6_witness :
    ∃ l, list_whitelist_by_region stList "eu" 50 = some l ∧
      List.Perm l ((stList.whitelists (pyUpper "eu")).map
        (entryView (pyUpper "eu") 50)) ∧
      List.Pairwise (fun a b => a.expiry ≤ b.expiry) l ∧
      ∀ v ∈ l, (v.status = "active" ↔ (50 : Int) < v.expiry) ∧
        v.time_remaining = max 0 (v.expiry - 50) :=
  claim6_list_sorted stList "eu" 50 (by decide)

/-- Claim C7: with the partition's keys unique (a dict invariant) and the
save succeeding, a sweep leaves exactly the unexpired entries (in order),
so no entry with `expiresAt <= now` remains, every entry with
`expiresAt > now` is kept, and the returned count is the number of expired
entries removed (0 when nothing was expired). -/
theorem claim7_sweep_correct (st : ServerState) (region : String) (now : Int)
    (hN : ((st.whitelists region).map Prod.fst).Nodup) :
    (clean_expired_entries st region now true).2.whitelists region =
      (st.whitelists region).filter (fun p => now < p.2) ∧
    (∀ p ∈ (clean_expired_entries st region now true).2.whitelists region,
      now < p.2) ∧
    (∀ p ∈ st.whitelists region, now < p.2 →
      p ∈ (clean_expired_entries st region now true).2.whitelists region) ∧
    (clean_expired_entries st region now true).1 =
      ((st.whitelists region).filter (fun p => p.2 ≤ now)).length := by
  have hkey : (((st.whitelists region).filter (fun p => p.2 ≤ now)).map
        Prod.fst).foldl dictErase (st.whitelists region) =
      (st.whitelists region).filter (fun p => now < p.2) := by
    rw [foldl_dictErase_eq_filter]
    apply List.filter_congr
    intro p hp
    rw [decide_eq_decide]
    constructor
    · intro hnot
      by_contra hc
      push_neg at hc
      exact hnot (List.mem_map_of_mem Prod.fst
        (List.mem_filter.mpr ⟨hp, by simpa using hc⟩))
    · intro hc hmem
      obtain ⟨q, hq, hqk⟩ := List.mem_map.mp hmem
      have hq' := List.mem_filter.mp hq
      have hqp : q = p := List.inj_on_of_nodup_map hN hq'.1 hp hqk
      have := of_decide_eq_true hq'.2
      rw [hqp] at this
      omega
  have h0 : (clean_expired_entries st region now true).2.whitelists region =
      (st.whitelists region).filter (fun p => now < p.2) ∧
      (clean_expired_entries st region now true).1 =
      ((st.whitelists region).filter (fun p => p.2 ≤ now)).length := by
    simp only [clean_expired_entries]
    by_cases he : (((st.whitelists region).filter (fun p => p.2 ≤ now)).map
        Prod.fst).isEmpty = true
    · rw [if_pos he]
      have hnil : (st.whitelists region).filter (fun p => p.2 ≤ now) = [] := by
        rw [List.isEmpty_iff] at he
        exact List.map_eq_nil_iff.mp he
      have hself : (st.whitelists region).filter (fun p => now < p.2) =
          st.whitelists region := by
        rw [List.filter_eq_self]
        intro p hp
        have := List.filter_eq_nil_iff.mp hnil p hp
        simp only [decide_eq_true_eq] at this ⊢
        omega
      exact ⟨hself.symm, by simp [hnil]⟩
    · rw [if_neg he, if_pos trivial]
      constructor
      · simpa using hkey
      · simp
  refine ⟨h0.1, ?_, ?_, h0.2⟩
  · intro p hp
    rw [h0.1] at hp
    exact of_decide_eq_true (List.mem_filter.mp hp).2
  · intro p hp hc
    rw [h0.1]
    exact List.mem_filter.mpr ⟨hp, by simpa using hc⟩

/-- Claim C7 witness: sweeping `ME` of `stDup` at time 5000 removes the one
expired entry (count 1) and keeps the active one. -/
theorem claim7_witness :
    (clean_expired_entries stDup "ME" 5000 true).2.whitelists "ME" =
      (stDup.whitelists "ME").filter (fun p => (5000 : Int) < p.2) ∧
    (∀ p ∈ (clean_expired_entries stDup "ME" 5000 true).2.whitelists "ME",
      (5000 : Int) < p.2) ∧
    (∀ p ∈ stDup.whitelists "ME", (5000 : Int) < p.2 →
      p ∈ (clean_expired_entries stDup "ME" 5000 true).2.whitelists "ME") ∧
    (clean_expired_entries stDup "ME" 5000 true).1 =
      ((stDup.whitelists "ME").filter (fun p => p.2 ≤ (5000 : Int))).length :=
  claim7_sweep_correct stDup "ME" 5000 (by decide)

/-- Claim C9: a remove call — whatever its outcome — never changes the
users file (so no balance or history change, and no refund) and never
changes any partition other than the targeted (upper-cased) region. -/
theorem claim9_remove_frame (st : ServerState) (rawUid rawRegion : String)
    (saveOk : Bool) :
    (remove_from_whitelist st rawUid rawRegion saveOk).2.users = st.users ∧
    ∀ r, r ≠ pyUpper rawRegion →
      (remove_from_whitelist st rawUid rawRegion saveOk).2.whitelists r =
        st.whitelists r := by
  simp only [remove_from_whitelist]
  repeat' split
  all_goals refine ⟨rfl, fun r hr => ?_⟩
  all_goals simp [hr]

/-- Claim C9 witness: removing uid 777 from `ME` leaves the users file and
the `IND` partition untouched (and likewise when the save fails). -/
theorem claim9_witness :
    ((remove_from_whitelist stDup "777" "me" true).2.users = stDup.users ∧
      (remove_from_whitelist stDup "777" "me" true).2.whitelists "IND" =
        stDup.whitelists "IND") ∧
    (remove_from_whitelist stDup "777" "me" false).2.whitelists "IND" =
      stDup.whitelists "IND" :=
  ⟨⟨(claim9_remove_frame stDup "777" "me" true).1,
    (claim9_remove_frame stDup "777" "me" true).2 "IND" (by decide)⟩,
   (claim9_remove_frame stDup "777" "me" false).2 "IND" (by decide)⟩

/-- Claim C10 witness: the default-hours add at a concrete state. -/
theorem claim10_witness :
    add_to_whitelist stAlice "alice" "999" "BR" none 0 true true =
      add_to_whitelist stAlice "alice" "999" "BR" (some DEFAULT_WHITELIST_HOURS)
        0 true true ∧
    dictGet ((add_to_whitelist stAlice "alice" "999" "BR" none 0 true
        true).2.whitelists "BR") "999" = some 86400 ∧
    (add_to_whitelist stAlice "alice" "999" "BR" none 0 true true).1 =
      AddResult.success "999" "BR" 86400 "active" 86400 0 := by
  have h := claim10_default_hours stAlice "alice" "999" "BR" 0 true true
    (by decide) (by decide) (by decide)
  exact h

end Backend
